import Mathlib

/-!
Verification of the konsole display core: a shallow embedding of the
image differencer (`TerminalDisplay::updateImage`), the painting
iteration (`TerminalDisplay::paintContents`), the image allocation and
resize routines (`makeImage` / `clearImage` / `updateImageSize`), and the
history line store (`HistoryScrollFile`), together with theorems about
the claims of the specification.
-/

namespace Konsole

/-- Shallow embedding of konsole's `Character` cell: a code point, a
foreground color descriptor, a background color descriptor and a
rendition bit-set.  Color descriptors and renditions are abstracted to
naturals; equality compares all four fields, matching
`Character::operator!=`. -/
structure Character where
  character : ℕ
  foregroundColor : ℕ
  backgroundColor : ℕ
  rendition : ℕ
deriving DecidableEq, Repr

/-- Embedding of `static inline bool isLineChar(Q_UINT16 c)` from
TerminalDisplay.cpp line 220: `(c & 0xFF80) == 0x2500`. -/
def isLineChar (c : ℕ) : Bool := (c &&& 0xFF80) == 0x2500

/-- Modelled constant for the `LINE_DOUBLEHEIGHT` flag bit (its header is
not part of the sources; only the bit-test pattern matters here). -/
def LINE_DOUBLEHEIGHT : ℕ := 4

/-- Test of `lineProperties[y] & LINE_DOUBLEHEIGHT` as a Bool. -/
def hasDoubleHeight (flags : ℕ) : Bool := (flags &&& LINE_DOUBLEHEIGHT) != 0

/-- Input-method composition state read by `updateImage`
(`m_imPreeditLength`, `m_imStartLine`, `m_imStart`, `m_imEnd`,
`m_imSelStart`, `m_imSelEnd`). -/
structure IMState where
  preeditLength : ℤ
  startLine : ℤ
  imStart : ℤ
  imEnd : ℤ
  selStart : ℤ
  selEnd : ℤ
deriving Repr

/-- Embedding of the input-composition/selection-highlight test inside
the dirty-mask loop of `updateImage` (TerminalDisplay.cpp lines
1023-1025), with C operator precedence (`&&` over `||`) made explicit:
`preedit > 0 && ((startLine == y && imStart < imEnd && imStart < x
&& x < imEnd) || (selStart < selEnd && selStart < x))`. -/
def imSpanHit (im : IMState) (y x : ℤ) : Bool :=
  decide (0 < im.preeditLength) &&
    ((decide (im.startLine = y) && (decide (im.imStart < im.imEnd) &&
        decide (im.imStart < x) && decide (x < im.imEnd))) ||
      (decide (im.selStart < im.selEnd) && decide (im.selStart < x)))

/-- Single step of the dirty-mask loop body (line 1028):
`dirtyMask[c] = dirtyMask[c+1] = dirtyMask[c+2] = 1`. -/
def markDirty (m : ℕ → Bool) (c : ℕ) : ℕ → Bool :=
  fun i => if i = c ∨ i = c + 1 ∨ i = c + 2 then true else m i

/-- Raw dirty mask after processing columns `0 .. n-1` of a row
(lines 1019-1030): the mask starts zeroed and each column `c` with
`cond c` set marks raw indices `c`, `c+1`, `c+2`. -/
def dirtyMaskRaw (cond : ℕ → Bool) : ℕ → (ℕ → Bool)
  | 0 => fun _ => false
  | n + 1 =>
      if cond n then markDirty (dirtyMaskRaw cond n) n else dirtyMaskRaw cond n

/-- Dirty mask as read after the `dirtyMask++` pointer shift (line 1031):
logical column `x` reads raw index `x + 1`. -/
def dirtyAt (cond : ℕ → Bool) (W x : ℕ) : Bool := dirtyMaskRaw cond W (x + 1)

/-- Per-column dirty condition of the mask-building loop (lines
1023-1026): the input-method span test, or `newLine[x] != currentLine[x]`. -/
def dirtyCond (im : IMState) (y : ℕ) (newLine currentLine : ℕ → Character)
    (c : ℕ) : Bool :=
  imSpanHit im y c || decide (newLine c ≠ currentLine c)

lemma dirtyMaskRaw_iff (cond : ℕ → Bool) (n i : ℕ) :
    dirtyMaskRaw cond n i = true ↔
      ∃ c : ℕ, c < n ∧ cond c = true ∧ (i = c ∨ i = c + 1 ∨ i = c + 2) := by
  induction n with
  | zero => simp [dirtyMaskRaw]
  | succ n ih =>
      cases h : cond n
      · simp only [dirtyMaskRaw, h, Bool.false_eq_true, if_false, ih]
        constructor
        · rintro ⟨c, hc, hcond, hor⟩
          exact ⟨c, Nat.lt_succ_of_lt hc, hcond, hor⟩
        · rintro ⟨c, hc, hcond, hor⟩
          rcases Nat.lt_succ_iff_lt_or_eq.mp hc with hc' | rfl
          · exact ⟨c, hc', hcond, hor⟩
          · exact absurd hcond (by simp [h])
      · simp only [dirtyMaskRaw, h, if_true, markDirty]
        by_cases hi : i = n ∨ i = n + 1 ∨ i = n + 2
        · simp only [hi, if_true, true_iff]
          exact ⟨n, Nat.lt_succ_self n, h, hi⟩
        · simp only [hi, if_false, ih]
          constructor
          · rintro ⟨c, hc, hcond, hor⟩
            exact ⟨c, Nat.lt_succ_of_lt hc, hcond, hor⟩
          · rintro ⟨c, hc, hcond, hor⟩
            rcases Nat.lt_succ_iff_lt_or_eq.mp hc with hc' | rfl
            · exact ⟨c, hc', hcond, hor⟩
            · exact absurd hor hi

lemma dirtyAt_iff (cond : ℕ → Bool) (W x : ℕ) :
    dirtyAt cond W x = true ↔
      ∃ c : ℕ, c < W ∧ cond c = true ∧ |(x : ℤ) - c| ≤ 1 := by
  rw [dirtyAt, dirtyMaskRaw_iff]
  constructor
  · rintro ⟨c, hc, hcond, hor⟩
    refine ⟨c, hc, hcond, ?_⟩
    rcases hor with h | h | h <;> (rw [abs_le]; omega)
  · rintro ⟨c, hc, hcond, habs⟩
    refine ⟨c, hc, hcond, ?_⟩
    rw [abs_le] at habs
    omega

/-- Modelled constant: default foreground color descriptor. -/
def DEFAULT_FORE_COLOR : ℕ := 0

/-- Modelled constant: default background color descriptor. -/
def DEFAULT_BACK_COLOR : ℕ := 1

/-- Modelled constant: `DEFAULT_RENDITION`. -/
def DEFAULT_RENDITION : ℕ := 0

/-- Blank cell written by `clearImage` (TerminalDisplay.cpp lines
2623-2626): space codepoint, default colors, default rendition. -/
def blankCharacter : Character :=
  ⟨32, DEFAULT_FORE_COLOR, DEFAULT_BACK_COLOR, DEFAULT_RENDITION⟩

/-- Claim C1: in `updateImage`, for every row `y` of the compared extent
and every column `x`, the shifted per-column dirty mask marks `x` dirty
iff some column `c` of the compared width with `|x - c| <= 1` differs
between the new and old line or lies in the active input-composition or
selection-highlight span for row `y`; in particular, when the only
difference is at a single column `c0` and no span is active, exactly the
columns at distance at most one from `c0` are marked. -/
theorem updateImage_dirtyMask_neighborhood (im : IMState) (y : ℕ)
    (newLine currentLine : ℕ → Character) (W x c0 : ℕ) (hx : x < W) :
    (dirtyAt (dirtyCond im y newLine currentLine) W x = true ↔
      ∃ c : ℕ, c < W ∧ |(x : ℤ) - c| ≤ 1 ∧
        (newLine c ≠ currentLine c ∨ imSpanHit im y c = true)) ∧
    ((∀ c : ℕ, imSpanHit im y c = false) → c0 < W →
      (∀ c, newLine c ≠ currentLine c ↔ c = c0) →
      (dirtyAt (dirtyCond im y newLine currentLine) W x = true ↔
        |(x : ℤ) - c0| ≤ 1)) := by
  have main : dirtyAt (dirtyCond im y newLine currentLine) W x = true ↔
      ∃ c : ℕ, c < W ∧ |(x : ℤ) - c| ≤ 1 ∧
        (newLine c ≠ currentLine c ∨ imSpanHit im y c = true) := by
    rw [dirtyAt_iff]
    constructor
    · rintro ⟨c, hc, hcond, habs⟩
      refine ⟨c, hc, habs, ?_⟩
      simp only [dirtyCond, Bool.or_eq_true, decide_eq_true_eq] at hcond
      tauto
    · rintro ⟨c, hc, habs, hor⟩
      refine ⟨c, hc, ?_, habs⟩
      simp only [dirtyCond, Bool.or_eq_true, decide_eq_true_eq]
      tauto
  refine ⟨main, fun him hc0 hdiff => ?_⟩
  rw [main]
  constructor
  · rintro ⟨c, hc, habs, hor⟩
    rcases hor with hne | hspan
    · rwa [(hdiff c).mp hne] at habs
    · rw [him c] at hspan
      exact absurd hspan (by simp)
  · intro habs
    exact ⟨c0, hc0, habs, Or.inl ((hdiff c0).mpr rfl)⟩

/-- Concrete input-method state with no active preedit. -/
def imOff : IMState := ⟨0, 0, 0, 0, 0, 0⟩

/-- Concrete new line differing from the blank old line at column 1 only. -/
def exNewLine : ℕ → Character :=
  fun c => if c = 1 then ⟨65, 0, 1, 0⟩ else blankCharacter

/-- Concrete old line: blank. -/
def exOldLine : ℕ → Character := fun _ => blankCharacter

theorem updateImage_dirtyMask_neighborhood_witness :
    (0 : ℕ) < 3 ∧
    ((dirtyAt (dirtyCond imOff 0 exNewLine exOldLine) 3 0 = true ↔
      ∃ c : ℕ, c < 3 ∧ |(0 : ℤ) - c| ≤ 1 ∧
        (exNewLine c ≠ exOldLine c ∨ imSpanHit imOff 0 c = true)) ∧
    ((∀ c : ℕ, imSpanHit imOff 0 c = false) → 1 < 3 →
      (∀ c, exNewLine c ≠ exOldLine c ↔ c = 1) →
      (dirtyAt (dirtyCond imOff 0 exNewLine exOldLine) 3 0 = true ↔
        |(0 : ℤ) - 1| ≤ 1))) :=
  ⟨by decide,
   updateImage_dirtyMask_neighborhood imOff 0 exNewLine exOldLine 3 0 1 (by decide)⟩

/-- Embedding of the run-break test of the inner loop of `updateImage`
(TerminalDisplay.cpp lines 1060-1062), at absolute column `j = x + len`:
`newLine[j].foregroundColor != cf || newLine[j].backgroundColor != cb ||
newLine[j].rendition != cr || !dirtyMask[j] || isLineChar(c) != lineDraw
|| (newLine[j+1].character == 0) != doubleWidth`. -/
def runBreakCond (newLine : ℕ → Character) (dirty : ℕ → Bool)
    (cf cb cr : ℕ) (lineDraw doubleWidth : Bool) (j : ℕ) : Bool :=
  decide ((newLine j).foregroundColor ≠ cf) ||
  decide ((newLine j).backgroundColor ≠ cb) ||
  decide ((newLine j).rendition ≠ cr) ||
  !dirty j ||
  (isLineChar (newLine j).character != lineDraw) ||
  (((newLine (j + 1)).character == 0) != doubleWidth)

/-- Condition under which the inner loop of `updateImage` moves from
`len` to `len + 1` (lines 1054-1065): the column is the zero-codepoint
trailing half of a multi-column character (skipped via `continue`), or
the break test fails.  The reference attributes `cf`, `cb`, `cr`,
`lineDraw`, `doubleWidth` are those of the run's first cell at `x`
(lines 1043-1052). -/
def runCont (newLine : ℕ → Character) (dirty : ℕ → Bool) (x len : ℕ) : Bool :=
  ((newLine (x + len)).character == 0) ||
    !(runBreakCond newLine dirty (newLine x).foregroundColor
        (newLine x).backgroundColor (newLine x).rendition
        (isLineChar (newLine x).character)
        ((newLine (x + 1)).character == 0) (x + len))

/-- Structural core of the `for (len = 1; len < lln; len++)` loop with
`continue`/`break` (lines 1054-1065): the counter `fuel = lln - len`
counts the remaining iterations, so the loop guard `len < lln` is
exactly `fuel` being nonzero. -/
def runScanF (cont : ℕ → Bool) : ℕ → ℕ → ℕ
  | 0, len => len
  | fuel + 1, len => if cont len then runScanF cont fuel (len + 1) else len

/-- Embedding of the bounded scan: starting from `len`, advance while
`cont` holds and `len < lln`; return the first `len` at which the loop
stops. -/
def runScan (cont : ℕ → Bool) (lln len : ℕ) : ℕ :=
  runScanF cont (lln - len) len

lemma runScan_eq (cont : ℕ → Bool) (lln len : ℕ) :
    runScan cont lln len =
      if len < lln then
        (if cont len then runScan cont lln (len + 1) else len)
      else len := by
  unfold runScan
  rcases hk : lln - len with _ | k
  · rw [if_neg (by omega), runScanF]
  · rw [if_pos (by omega), runScanF]
    have : lln - (len + 1) = k := by omega
    rw [this]

/-- Length of the drawable run started at column `x` of a row in
`updateImage`: the final value of `len` (`lln = columnsToUpdate - x`,
`len` starts at 1). -/
def runLen (newLine : ℕ → Character) (dirty : ℕ → Bool) (W x : ℕ) : ℕ :=
  runScan (runCont newLine dirty x) (W - x) 1

lemma runScan_ge (cont : ℕ → Bool) (lln : ℕ) :
    ∀ len, len ≤ runScan cont lln len := by
  intro len
  generalize hk : lln - len = k
  induction k generalizing len with
  | zero =>
      have h : ¬ len < lln := by omega
      rw [runScan_eq, if_neg h]
  | succ k ih =>
      have h : len < lln := by omega
      rw [runScan_eq, if_pos h]
      cases hc : cont len
      · rw [if_neg Bool.false_ne_true]
      · rw [if_pos rfl]
        exact le_trans (Nat.le_succ len) (ih (len + 1) (by omega))

lemma runScan_spec (cont : ℕ → Bool) (lln : ℕ) :
    ∀ len, len ≤ lln →
      runScan cont lln len ≤ lln ∧
      (∀ j, len ≤ j → j < runScan cont lln len → cont j = true) ∧
      (runScan cont lln len < lln → cont (runScan cont lln len) = false) := by
  intro len hlen
  generalize hk : lln - len = k
  induction k generalizing len with
  | zero =>
      have h : ¬ len < lln := by omega
      rw [runScan_eq, if_neg h]
      exact ⟨hlen, fun j h1 h2 => absurd h2 (by omega), fun h' => absurd h' h⟩
  | succ k ih =>
      have h : len < lln := by omega
      rw [runScan_eq, if_pos h]
      cases hc : cont len
      · rw [if_neg Bool.false_ne_true]
        refine ⟨le_of_lt h, fun j h1 h2 => absurd h2 (by omega), fun _ => hc⟩
      · rw [if_pos rfl]
        obtain ⟨h1, h2, h3⟩ := ih (len + 1) (by omega) (by omega)
        refine ⟨h1, fun j hj hjlt => ?_, h3⟩
        rcases eq_or_lt_of_le hj with rfl | hj'
        · exact hc
        · exact h2 j (by omega) hjlt

/-- Predicate on the column at offset `j` from the run start `x`: it
carries the same foreground color, background color and rendition as the
run's first cell, is marked dirty, has the same line-drawing-glyph
status, and the same double-width status (next cell's codepoint is zero
iff the run start's next cell's codepoint is zero). -/
def columnMatches (newLine : ℕ → Character) (dirty : ℕ → Bool)
    (x j : ℕ) : Prop :=
  (newLine (x + j)).foregroundColor = (newLine x).foregroundColor ∧
  (newLine (x + j)).backgroundColor = (newLine x).backgroundColor ∧
  (newLine (x + j)).rendition = (newLine x).rendition ∧
  dirty (x + j) = true ∧
  isLineChar (newLine (x + j)).character = isLineChar (newLine x).character ∧
  ((newLine (x + j + 1)).character = 0 ↔ (newLine (x + 1)).character = 0)

instance (newLine : ℕ → Character) (dirty : ℕ → Bool) (x j : ℕ) :
    Decidable (columnMatches newLine dirty x j) := by
  unfold columnMatches; infer_instance

lemma runCont_iff (newLine : ℕ → Character) (dirty : ℕ → Bool) (x j : ℕ) :
    runCont newLine dirty x j = true ↔
      (newLine (x + j)).character = 0 ∨ columnMatches newLine dirty x j := by
  simp only [runCont, runBreakCond, columnMatches, Bool.or_eq_true,
    beq_iff_eq, Bool.not_eq_true', Bool.or_eq_false_iff,
    decide_eq_false_iff_not, not_not, Bool.not_eq_false, Bool.not_eq_false',
    bne_eq_false_iff_eq, beq_eq_beq]
  tauto

/-- Claim C2: a drawable run of `updateImage` started at a dirty column
`x` with nonzero codepoint spans offsets `1 .. runLen - 1` and extends
exactly while each column is either a zero-codepoint continuation cell
(skipped, never a breaker) or matches the first cell's foreground,
background, rendition, dirtiness, line-drawing status and double-width
status; the column that stops a run short of the row end is a
non-continuation column that fails the match. -/
theorem updateImage_run_extension (newLine : ℕ → Character)
    (dirty : ℕ → Bool) (W x : ℕ) (hx : x < W) (hd : dirty x = true)
    (hc : (newLine x).character ≠ 0) :
    1 ≤ runLen newLine dirty W x ∧
    x + runLen newLine dirty W x ≤ W ∧
    (∀ j, 1 ≤ j → j < runLen newLine dirty W x →
      (newLine (x + j)).character = 0 ∨ columnMatches newLine dirty x j) ∧
    (x + runLen newLine dirty W x < W →
      (newLine (x + runLen newLine dirty W x)).character ≠ 0 ∧
      ¬ columnMatches newLine dirty x (runLen newLine dirty W x)) := by
  have hlln : 1 ≤ W - x := by omega
  obtain ⟨h1, h2, h3⟩ := runScan_spec (runCont newLine dirty x) (W - x) 1 hlln
  refine ⟨runScan_ge _ _ 1, by unfold runLen; omega, ?_, ?_⟩
  · intro j hj hjlt
    exact (runCont_iff newLine dirty x j).mp (h2 j hj hjlt)
  · intro hlt
    have : runLen newLine dirty W x < W - x := by unfold runLen at *; omega
    have hfalse := h3 this
    rw [← runLen] at hfalse
    have := (not_congr (runCont_iff newLine dirty x
      (runLen newLine dirty W x))).mp (by simp [hfalse])
    push_neg at this
    exact this

/-- Concrete dirty mask for the run-extension witness. -/
def exDirtyAll : ℕ → Bool := fun _ => true

theorem updateImage_run_extension_witness :
    ((0 : ℕ) < 2 ∧ exDirtyAll 0 = true ∧ (exOldLine 0).character ≠ 0) ∧
    (1 ≤ runLen exOldLine exDirtyAll 2 0 ∧
     0 + runLen exOldLine exDirtyAll 2 0 ≤ 2 ∧
     (∀ j, 1 ≤ j → j < runLen exOldLine exDirtyAll 2 0 →
       (exOldLine (0 + j)).character = 0 ∨
         columnMatches exOldLine exDirtyAll 0 j) ∧
     (0 + runLen exOldLine exDirtyAll 2 0 < 2 →
       (exOldLine (0 + runLen exOldLine exDirtyAll 2 0)).character ≠ 0 ∧
       ¬ columnMatches exOldLine exDirtyAll 0 (runLen exOldLine exDirtyAll 2 0))) :=
  ⟨⟨by decide, by decide, by decide⟩,
   updateImage_run_extension exOldLine exDirtyAll 2 0 (by decide) (by decide)
     (by decide)⟩

lemma one_le_runLen (newLine : ℕ → Character) (dirty : ℕ → Bool) (W x : ℕ) :
    1 ≤ runLen newLine dirty W x :=
  runScan_ge _ _ 1

/-- Embedding of the per-row drawing scan of `updateImage` (lines
1034-1098) restricted to its effect on `updateLine`: starting at column
`x` with accumulator `acc`, visit columns left to right while `x < W`; a
dirty column with nonzero codepoint starts a run (setting `updateLine`)
and advances `x` by the run length (`x += len - 1` plus the loop
increment); a dirty column with zero codepoint is skipped via
`continue`; a clean column is passed over.  `fuel` bounds the number of
iterations; every iteration advances `x` by at least one, so any
`fuel >= W - x` computes the loop's result. -/
def scanRowF (newLine : ℕ → Character) (dirty : ℕ → Bool) (W : ℕ) :
    ℕ → ℕ → Bool → Bool
  | 0, _, acc => acc
  | fuel + 1, x, acc =>
    if x < W then
      if dirty x then
        if (newLine x).character = 0 then
          scanRowF newLine dirty W fuel (x + 1) acc
        else
          scanRowF newLine dirty W fuel (x + runLen newLine dirty W x) true
      else scanRowF newLine dirty W fuel (x + 1) acc
    else acc

/-- Value of `updateLine` after one row's drawing scan (the scan starts
at column 0 with `updateLine = false`). -/
def scanRow (newLine : ℕ → Character) (dirty : ℕ → Bool) (W : ℕ) : Bool :=
  scanRowF newLine dirty W W 0 false

lemma scanRowF_iff (newLine : ℕ → Character) (dirty : ℕ → Bool) (W : ℕ) :
    ∀ fuel x acc, W - x ≤ fuel →
      (scanRowF newLine dirty W fuel x acc = true ↔
        (acc = true ∨
          ∃ x', x ≤ x' ∧ x' < W ∧ dirty x' = true ∧
            (newLine x').character ≠ 0)) := by
  intro fuel
  induction fuel with
  | zero =>
      intro x acc hk
      rw [scanRowF]
      constructor
      · exact Or.inl
      · rintro (hacc | ⟨x', hx1, hx2, _, _⟩)
        · exact hacc
        · omega
  | succ fuel ih =>
      intro x acc hk
      by_cases h : x < W
      · rw [scanRowF, if_pos h]
        cases hd : dirty x
        · rw [if_neg Bool.false_ne_true, ih (x + 1) acc (by omega)]
          constructor
          · rintro (hacc | ⟨x', hx1, hx2, hx3, hx4⟩)
            · exact Or.inl hacc
            · exact Or.inr ⟨x', by omega, hx2, hx3, hx4⟩
          · rintro (hacc | ⟨x', hx1, hx2, hx3, hx4⟩)
            · exact Or.inl hacc
            · refine Or.inr ⟨x', ?_, hx2, hx3, hx4⟩
              rcases Nat.eq_or_lt_of_le hx1 with rfl | h'
              · rw [hd] at hx3
                exact absurd hx3 (by simp)
              · omega
        · rw [if_pos rfl]
          by_cases hz : (newLine x).character = 0
          · rw [if_pos hz, ih (x + 1) acc (by omega)]
            constructor
            · rintro (hacc | ⟨x', hx1, hx2, hx3, hx4⟩)
              · exact Or.inl hacc
              · exact Or.inr ⟨x', by omega, hx2, hx3, hx4⟩
            · rintro (hacc | ⟨x', hx1, hx2, hx3, hx4⟩)
              · exact Or.inl hacc
              · refine Or.inr ⟨x', ?_, hx2, hx3, hx4⟩
                rcases Nat.eq_or_lt_of_le hx1 with rfl | h'
                · exact absurd hz hx4
                · omega
          · rw [if_neg hz]
            have hrl := one_le_runLen newLine dirty W x
            rw [ih (x + runLen newLine dirty W x) true (by omega)]
            constructor
            · intro _
              exact Or.inr ⟨x, le_refl x, h, hd, hz⟩
            · intro _
              exact Or.inl rfl
      · rw [scanRowF, if_neg h]
        constructor
        · exact Or.inl
        · rintro (hacc | ⟨x', hx1, hx2, _, _⟩)
          · exact hacc
          · omega

lemma scanRow_iff (newLine : ℕ → Character) (dirty : ℕ → Bool) (W : ℕ) :
    scanRow newLine dirty W = true ↔
      ∃ x', x' < W ∧ dirty x' = true ∧ (newLine x').character ≠ 0 := by
  rw [scanRow, scanRowF_iff newLine dirty W W 0 false (by omega)]
  simp only [Bool.false_eq_true, false_or, Nat.zero_le, true_and]

/-- Display-side state read and written by `updateImage`: the retained
grid dimensions (`this->lines`, `this->columns`), the previously used
extent (`usedLines`, `usedColumns`) and the retained image as a flat
cell array indexed by `loc(x,y) = y*columns + x`. -/
structure DisplayState where
  lines : ℕ
  columns : ℕ
  usedLines : ℕ
  usedColumns : ℕ
  image : ℕ → Character

/-- Screen-window inputs of `updateImage`: the new image
(`_screenWindow->getImage()`, flat, row width `windowColumns`) and the
window dimensions, which are plain C ints and may differ from the
display's retained dimensions. -/
structure ScreenWindow where
  img : ℕ → Character
  windowLines : ℤ
  windowColumns : ℤ

/-- Pixel-geometry parameters of the display (`bX`, `tLx`, `bY`, `tLy`,
`font_w`, `font_h`). -/
structure Geometry where
  bX : ℤ
  tLx : ℤ
  bY : ℤ
  tLy : ℤ
  font_w : ℤ
  font_h : ℤ

/-- Set of pixels of `QRect(x0, y0, w, h)`. -/
def rectSet (x0 y0 w h : ℤ) : Set (ℤ × ℤ) :=
  {p | x0 ≤ p.1 ∧ p.1 < x0 + w ∧ y0 ≤ p.2 ∧ p.2 < y0 + h}

/-- Clamped row count of the compared extent (line 1000):
`qMin(this->lines, qMax(0, lines))`. -/
def linesToUpdate (st : DisplayState) (win : ScreenWindow) : ℕ :=
  min st.lines win.windowLines.toNat

/-- Clamped column count of the compared extent (line 1001):
`qMin(this->columns, qMax(0, columns))`. -/
def columnsToUpdate (st : DisplayState) (win : ScreenWindow) : ℕ :=
  min st.columns win.windowColumns.toNat

/-- Row `y` of the new image (`newLine = &newimg[y*columns]`, line 1012). -/
def newLineAt (win : ScreenWindow) (y : ℕ) : ℕ → Character :=
  fun c => win.img (y * win.windowColumns.toNat + c)

/-- Row `y` of the retained image
(`currentLine = &image[y*this->columns]`, line 1011). -/
def currentLineAt (st : DisplayState) (y : ℕ) : ℕ → Character :=
  fun c => st.image (y * st.columns + c)

/-- Shifted dirty mask of row `y` in one `updateImage` call. -/
def rowDirty (im : IMState) (st : DisplayState) (win : ScreenWindow)
    (y : ℕ) : ℕ → Bool :=
  dirtyAt (dirtyCond im y (newLineAt win y) (currentLineAt st y))
    (columnsToUpdate st win)

/-- Whether the drawing scan of row `y` found at least one drawable run;
the scan only runs when not resizing (line 1033). -/
def rowHasRun (resizing : Bool) (im : IMState) (st : DisplayState)
    (win : ScreenWindow) (y : ℕ) : Bool :=
  !resizing &&
    scanRow (newLineAt win y) (rowDirty im st win y) (columnsToUpdate st win)

/-- Whether row `y` is flagged for redraw (lines 1092, 1103-1104):
a run was found, or `lineProperties.count() > y` and
`lineProperties[y] & LINE_DOUBLEHEIGHT` is set. -/
def rowFlagged (resizing : Bool) (im : IMState) (st : DisplayState)
    (win : ScreenWindow) (lineProps : List ℕ) (y : ℕ) : Bool :=
  rowHasRun resizing im st win y ||
    (decide (y < lineProps.length) && hasDoubleHeight (lineProps.getD y 0))

/-- Dirty rectangle contributed by flagged row `y` (line 1109):
`QRect(bX+tLx, bY+tLy+font_h*y, font_w*columnsToUpdate, font_h)`. -/
def rowRect (g : Geometry) (W y : ℕ) : Set (ℤ × ℤ) :=
  rectSet (g.bX + g.tLx) (g.bY + g.tLy + g.font_h * y) (g.font_w * W) g.font_h

/-- Pixel rectangle of the single cell at column `x`, row `y`. -/
def cellRect (g : Geometry) (x y : ℕ) : Set (ℤ × ℤ) :=
  rectSet (g.bX + g.tLx + g.font_w * x) (g.bY + g.tLy + g.font_h * y)
    g.font_w g.font_h

/-- Clear rectangle emitted when the compared extent has fewer lines than
the previously used extent (line 1126). -/
def shrinkRowsRect (g : Geometry) (st : DisplayState) (ltu : ℕ) :
    Set (ℤ × ℤ) :=
  rectSet (g.bX + g.tLx) (g.bY + g.tLy + g.font_h * ltu)
    (g.font_w * st.columns) (g.font_h * (st.usedLines - ltu : ℕ))

/-- Clear rectangle emitted when the compared extent has fewer columns
than the previously used extent (line 1132). -/
def shrinkColsRect (g : Geometry) (st : DisplayState) (ctu : ℕ) :
    Set (ℤ × ℤ) :=
  rectSet (g.bX + g.tLx + ctu * g.font_w) (g.bY + g.tLy)
    (g.font_w * (st.usedColumns - ctu : ℕ)) (g.font_h * st.lines)

/-- Overwrite of `count` cells starting at flat index `base` with the
cells of `src` (one `memcpy((void*)currentLine, (const void*)newLine,
columnsToUpdate*sizeof(Character))`, line 1117). -/
def writeRow (img : ℕ → Character) (base count : ℕ)
    (src : ℕ → Character) : ℕ → Character :=
  fun i => if base ≤ i ∧ i < base + count then src (i - base) else img i

/-- Retained image after the per-row `memcpy` of rows `0 .. n-1`
(line 1117): for each compared row, `image` becomes `newimg` on the
compared columns. -/
def copyRows (st : DisplayState) (win : ScreenWindow) (ctu : ℕ) :
    ℕ → (ℕ → Character)
  | 0 => st.image
  | y + 1 =>
      writeRow (copyRows st win ctu y) (y * st.columns) ctu (newLineAt win y)

/-- Results of one `updateImage` call: the rows flagged for redraw, the
repaint region passed to `update(dirtyRegion)`, the overwritten retained
image, and the new used extent. -/
structure UpdateResult where
  flaggedRows : List ℕ
  region : Set (ℤ × ℤ)
  image : ℕ → Character
  usedLines : ℕ
  usedColumns : ℕ

/-- Embedding of the differencing part of `TerminalDisplay::updateImage`
(lines 1000-1137): per compared row, build the dirty mask, find drawable
runs, flag the row, and accumulate one rectangle per flagged row; emit
clear rectangles when the compared extent shrank below the used extent;
overwrite the retained image with the new image on the compared extent;
store the compared extent as the new used extent. -/
def updateImage (g : Geometry) (st : DisplayState) (lineProps : List ℕ)
    (im : IMState) (resizing : Bool) (win : ScreenWindow) : UpdateResult :=
  let ltu := linesToUpdate st win
  let ctu := columnsToUpdate st win
  let flagged := (List.range ltu).filter (rowFlagged resizing im st win lineProps)
  let rowRegion : Set (ℤ × ℤ) := {p | ∃ y ∈ flagged, p ∈ rowRect g ctu y}
  let region := rowRegion ∪
    (if ltu < st.usedLines then shrinkRowsRect g st ltu else ∅) ∪
    (if ctu < st.usedColumns then shrinkColsRect g st ctu else ∅)
  ⟨flagged, region, copyRows st win ctu ltu, ltu, ctu⟩

/-- Claim C9: `updateImage` clamps the compared extent to
`min(this->lines, max(0, windowLines))` by `min(this->columns,
max(0, windowColumns))` without requiring equal dimensions, stores
exactly these clamped values as the new used extent, and emits a clear
rectangle for each direction in which the new used extent is smaller
than the previous one. -/
theorem updateImage_clamped_extent (g : Geometry) (st : DisplayState)
    (lineProps : List ℕ) (im : IMState) (resizing : Bool)
    (win : ScreenWindow) :
    ((updateImage g st lineProps im resizing win).usedLines : ℤ) =
      min (st.lines : ℤ) (max 0 win.windowLines) ∧
    ((updateImage g st lineProps im resizing win).usedColumns : ℤ) =
      min (st.columns : ℤ) (max 0 win.windowColumns) ∧
    (linesToUpdate st win < st.usedLines →
      shrinkRowsRect g st (linesToUpdate st win) ⊆
        (updateImage g st lineProps im resizing win).region) ∧
    (columnsToUpdate st win < st.usedColumns →
      shrinkColsRect g st (columnsToUpdate st win) ⊆
        (updateImage g st lineProps im resizing win).region) := by
  refine ⟨?_, ?_, ?_, ?_⟩
  · show ((linesToUpdate st win : ℕ) : ℤ) = _
    rw [linesToUpdate]
    push_cast [Int.toNat_eq_max]
    omega
  · show ((columnsToUpdate st win : ℕ) : ℤ) = _
    rw [columnsToUpdate]
    push_cast [Int.toNat_eq_max]
    omega
  · intro h
    intro p hp
    show p ∈ _ ∪ _ ∪ _
    rw [if_pos h]
    exact Or.inl (Or.inr hp)
  · intro h
    intro p hp
    show p ∈ _ ∪ _ ∪ _
    rw [if_pos h]
    exact Or.inr hp

/-- Concrete geometry with unit cells at the origin. -/
def exG : Geometry := ⟨0, 0, 0, 0, 1, 1⟩

/-- Concrete one-by-one display whose retained image is blank and whose
previously used extent is empty. -/
def exStSmall : DisplayState := ⟨1, 1, 0, 0, fun _ => blankCharacter⟩

/-- Concrete one-by-one screen window carrying the line `exNewLine`. -/
def exWinSmall : ScreenWindow := ⟨exNewLine, 1, 1⟩

/-- Concrete one-by-one display whose previously used extent (two by
two) exceeds the compared extent, so the shrink clear-rectangles fire. -/
def exStShrink : DisplayState := ⟨1, 1, 2, 2, fun _ => blankCharacter⟩

/-- Concrete one-by-one display with a blank retained image and used
extent one-by-one. -/
def exStBlank : DisplayState := ⟨1, 1, 1, 1, fun _ => blankCharacter⟩

/-- Concrete one-by-one screen window whose image is blank, equal to the
retained image of `exStBlank`. -/
def exWinBlank : ScreenWindow := ⟨fun _ => blankCharacter, 1, 1⟩

/-- Claim C4 (amended): the flagged rows are pairwise distinct, each
contributing one rectangle at its vertical band; a pixel belongs to the
repaint region handed to the caller iff it lies in one of these per-row
rectangles or in a shrink clear-rectangle whose guard holds; the region
equals the union of the per-row rectangles alone whenever the previously
used extent does not exceed the compared extent; and each flagged row's
rectangle covers the cell of every dirty (affected) column of the
row. -/
theorem updateImage_region_per_row_rects (g : Geometry)
    (st : DisplayState) (lineProps : List ℕ) (im : IMState)
    (resizing : Bool) (win : ScreenWindow) (hfw : 0 ≤ g.font_w) :
    (updateImage g st lineProps im resizing win).flaggedRows.Nodup ∧
    (∀ p : ℤ × ℤ, p ∈ (updateImage g st lineProps im resizing win).region ↔
      ((∃ y ∈ (updateImage g st lineProps im resizing win).flaggedRows,
          p ∈ rowRect g (columnsToUpdate st win) y) ∨
        (linesToUpdate st win < st.usedLines ∧
          p ∈ shrinkRowsRect g st (linesToUpdate st win)) ∨
        (columnsToUpdate st win < st.usedColumns ∧
          p ∈ shrinkColsRect g st (columnsToUpdate st win)))) ∧
    (st.usedLines ≤ linesToUpdate st win →
      st.usedColumns ≤ columnsToUpdate st win →
      (updateImage g st lineProps im resizing win).region =
        {p | ∃ y ∈ (updateImage g st lineProps im resizing win).flaggedRows,
          p ∈ rowRect g (columnsToUpdate st win) y}) ∧
    (∀ y ∈ (updateImage g st lineProps im resizing win).flaggedRows,
      ∀ x, x < columnsToUpdate st win → rowDirty im st win y x = true →
        cellRect g x y ⊆ rowRect g (columnsToUpdate st win) y) := by
  refine ⟨?_, ?_, ?_, ?_⟩
  · exact (List.nodup_range _).filter _
  · intro p
    have hreg : (updateImage g st lineProps im resizing win).region =
        {q | ∃ y ∈ (updateImage g st lineProps im resizing win).flaggedRows,
          q ∈ rowRect g (columnsToUpdate st win) y} ∪
        (if linesToUpdate st win < st.usedLines then
          shrinkRowsRect g st (linesToUpdate st win) else ∅) ∪
        (if columnsToUpdate st win < st.usedColumns then
          shrinkColsRect g st (columnsToUpdate st win) else ∅) := rfl
    rw [hreg]
    have hif : ∀ (c : Prop) (inst : Decidable c) (s : Set (ℤ × ℤ)),
        (p ∈ if c then s else ∅) ↔ (c ∧ p ∈ s) := by
      intro c inst s
      by_cases h : c
      · rw [if_pos h]
        simp [h]
      · rw [if_neg h]
        simp [h]
    simp only [Set.mem_union, hif, Set.mem_setOf_eq, or_assoc]
  · intro hL hC
    show _ ∪ _ ∪ _ = _
    rw [if_neg (by omega), if_neg (by omega), Set.union_empty, Set.union_empty]
    rfl
  · intro y _ x hx _ p hp
    obtain ⟨h1, h2, h3, h4⟩ := hp
    have hxW : ((x : ℤ) + 1) ≤ (columnsToUpdate st win : ℤ) := by
      exact_mod_cast hx
    have hmul : g.font_w * ((x : ℤ) + 1) ≤
        g.font_w * (columnsToUpdate st win : ℤ) :=
      mul_le_mul_of_nonneg_left hxW hfw
    have hxnn : 0 ≤ g.font_w * (x : ℤ) :=
      mul_nonneg hfw (Int.ofNat_nonneg x)
    refine ⟨by linarith, by nlinarith, h3, h4⟩

theorem updateImage_region_per_row_rects_witness :
    (0 : ℤ) ≤ exG.font_w ∧
    ((updateImage exG exStSmall [] imOff false exWinSmall).flaggedRows.Nodup ∧
    (∀ p : ℤ × ℤ, p ∈ (updateImage exG exStSmall [] imOff false exWinSmall).region ↔
      ((∃ y ∈ (updateImage exG exStSmall [] imOff false exWinSmall).flaggedRows,
          p ∈ rowRect exG (columnsToUpdate exStSmall exWinSmall) y) ∨
        (linesToUpdate exStSmall exWinSmall < exStSmall.usedLines ∧
          p ∈ shrinkRowsRect exG exStSmall (linesToUpdate exStSmall exWinSmall)) ∨
        (columnsToUpdate exStSmall exWinSmall < exStSmall.usedColumns ∧
          p ∈ shrinkColsRect exG exStSmall (columnsToUpdate exStSmall exWinSmall)))) ∧
    (exStSmall.usedLines ≤ linesToUpdate exStSmall exWinSmall →
      exStSmall.usedColumns ≤ columnsToUpdate exStSmall exWinSmall →
      (updateImage exG exStSmall [] imOff false exWinSmall).region =
        {p | ∃ y ∈ (updateImage exG exStSmall [] imOff false exWinSmall).flaggedRows,
          p ∈ rowRect exG (columnsToUpdate exStSmall exWinSmall) y}) ∧
    (∀ y ∈ (updateImage exG exStSmall [] imOff false exWinSmall).flaggedRows,
      ∀ x, x < columnsToUpdate exStSmall exWinSmall →
        rowDirty imOff exStSmall exWinSmall y x = true →
          cellRect exG x y ⊆ rowRect exG (columnsToUpdate exStSmall exWinSmall) y)) :=
  ⟨by decide,
   updateImage_region_per_row_rects exG exStSmall [] imOff false exWinSmall
     (by decide)⟩

/-- Counterexample to claim C4 as stated: when the previously used
extent exceeds the compared extent, the region handed to the caller
contains the shrink clear-rectangles of lines 1124-1133, so it is not
the union of the per-row rectangles: the pixel (0, 1) lies in the
region although no flagged row's rectangle contains it (no row is
flagged at all). -/
theorem updateImage_region_shrink_counterexample :
    (0, 1) ∈ (updateImage exG exStShrink [] imOff false exWinBlank).region ∧
    ¬ ∃ y ∈ (updateImage exG exStShrink [] imOff false exWinBlank).flaggedRows,
        (0, 1) ∈ rowRect exG (columnsToUpdate exStShrink exWinBlank) y := by
  constructor
  · have h1 : linesToUpdate exStShrink exWinBlank = 1 := by decide
    have hmem : ((0 : ℤ), (1 : ℤ)) ∈
        shrinkRowsRect exG exStShrink (linesToUpdate exStShrink exWinBlank) := by
      rw [h1]
      simp only [shrinkRowsRect, rectSet, exG, exStShrink, Set.mem_setOf_eq]
      norm_num
    exact Or.inl (Or.inr (by rw [if_pos (by decide)]; exact hmem))
  · rintro ⟨y, hy, _⟩
    have hempty :
        (updateImage exG exStShrink [] imOff false exWinBlank).flaggedRows
          = [] := by decide
    rw [hempty] at hy
    exact absurd hy (List.not_mem_nil y)

lemma rowFlagged_false_of_quiescent (st : DisplayState)
    (win : ScreenWindow) (lineProps : List ℕ) (im : IMState)
    (resizing : Bool) (y : ℕ)
    (hEq : ∀ c, c < columnsToUpdate st win →
      newLineAt win y c = currentLineAt st y c)
    (hIM : ∀ c, c < columnsToUpdate st win → imSpanHit im y c = false)
    (hDH : y < lineProps.length → hasDoubleHeight (lineProps.getD y 0) = false) :
    rowFlagged resizing im st win lineProps y = false := by
  have hcond : ∀ c, c < columnsToUpdate st win →
      dirtyCond im y (newLineAt win y) (currentLineAt st y) c = false := by
    intro c hc
    simp only [dirtyCond, Bool.or_eq_false_iff, decide_eq_false_iff_not, not_not]
    exact ⟨hIM c hc, hEq c hc⟩
  have hdirty : ∀ x, rowDirty im st win y x = false := by
    intro x
    rw [← Bool.not_eq_true, rowDirty, dirtyAt_iff]
    rintro ⟨c, hc, hcnd, _⟩
    rw [hcond c hc] at hcnd
    exact absurd hcnd (by simp)
  have hscan : scanRow (newLineAt win y) (rowDirty im st win y)
      (columnsToUpdate st win) = false := by
    rw [← Bool.not_eq_true, scanRow_iff]
    rintro ⟨x', _, hd, _⟩
    rw [hdirty x'] at hd
    exact absurd hd (by simp)
  rw [rowFlagged, rowHasRun, hscan]
  by_cases hy : y < lineProps.length
  · have h' := hDH hy
    rw [List.getD_eq_getElem _ _ hy] at h'
    simp [hy, h']
  · simp [hy]

lemma updateImage_region_empty_core (g : Geometry) (st : DisplayState)
    (lineProps : List ℕ) (im : IMState) (resizing : Bool)
    (win : ScreenWindow)
    (hEq : ∀ y, y < linesToUpdate st win → ∀ c, c < columnsToUpdate st win →
      newLineAt win y c = currentLineAt st y c)
    (hIM : ∀ y, y < linesToUpdate st win → ∀ c, c < columnsToUpdate st win →
      imSpanHit im y c = false)
    (hDH : ∀ y, y < linesToUpdate st win → y < lineProps.length →
      hasDoubleHeight (lineProps.getD y 0) = false)
    (hL : st.usedLines ≤ linesToUpdate st win)
    (hC : st.usedColumns ≤ columnsToUpdate st win) :
    (updateImage g st lineProps im resizing win).region = ∅ := by
  have hflag : (List.range (linesToUpdate st win)).filter
      (rowFlagged resizing im st win lineProps) = [] := by
    rw [List.filter_eq_nil_iff]
    intro y hy
    rw [List.mem_range] at hy
    rw [rowFlagged_false_of_quiescent st win lineProps im resizing y
      (hEq y hy) (hIM y hy) (hDH y hy)]
    simp
  show _ ∪ _ ∪ _ = ∅
  rw [if_neg (by omega), if_neg (by omega), Set.union_empty, Set.union_empty]
  ext p
  simp only [Set.mem_setOf_eq, Set.mem_empty_iff_false, iff_false, not_exists]
  rw [hflag]
  simp

/-- Claim C5 (amended): for grids equal on the compared extent, a single
run of the differencer returns an empty dirty region, provided no
input-composition or selection-highlight span is active on the compared
extent, no compared row carries the double-height flag, and the
previously used extent does not exceed the compared extent. -/
theorem updateImage_equal_grids_empty_region (g : Geometry)
    (st : DisplayState) (lineProps : List ℕ) (im : IMState)
    (resizing : Bool) (win : ScreenWindow)
    (hEq : ∀ y, y < linesToUpdate st win → ∀ c, c < columnsToUpdate st win →
      newLineAt win y c = currentLineAt st y c)
    (hIM : ∀ y, y < linesToUpdate st win → ∀ c, c < columnsToUpdate st win →
      imSpanHit im y c = false)
    (hDH : ∀ y, y < linesToUpdate st win → y < lineProps.length →
      hasDoubleHeight (lineProps.getD y 0) = false)
    (hL : st.usedLines ≤ linesToUpdate st win)
    (hC : st.usedColumns ≤ columnsToUpdate st win) :
    (updateImage g st lineProps im resizing win).region = ∅ :=
  updateImage_region_empty_core g st lineProps im resizing win hEq hIM hDH hL hC


theorem updateImage_equal_grids_empty_region_witness :
    ((∀ y, y < linesToUpdate exStBlank exWinBlank →
        ∀ c, c < columnsToUpdate exStBlank exWinBlank →
          newLineAt exWinBlank y c = currentLineAt exStBlank y c) ∧
      exStBlank.usedLines ≤ linesToUpdate exStBlank exWinBlank ∧
      exStBlank.usedColumns ≤ columnsToUpdate exStBlank exWinBlank) ∧
    (updateImage exG exStBlank [] imOff false exWinBlank).region = ∅ :=
  ⟨⟨fun _ _ _ _ => rfl, by decide, by decide⟩,
   updateImage_equal_grids_empty_region exG exStBlank [] imOff false
     exWinBlank (fun _ _ _ _ => rfl)
     (fun y _ c _ => by simp [imSpanHit, imOff])
     (fun y _ hy => absurd hy (by simp)) (by decide) (by decide)⟩

/-- Counterexample to claim C5 as stated: with the new grid equal to the
old grid everywhere but the single compared row carrying the
double-height line property, the differencer returns a nonempty dirty
region (the row is always flagged for redraw). -/
theorem updateImage_equal_grids_counterexample :
    (∀ i, exWinBlank.img i = exStBlank.image i) ∧
    (0, 0) ∈
      (updateImage exG exStBlank [LINE_DOUBLEHEIGHT] imOff false
        exWinBlank).region := by
  refine ⟨fun _ => rfl, Or.inl (Or.inl ⟨0, ?_, ?_⟩)⟩
  · decide
  · show (0 : ℤ) ≤ 0 ∧ (0 : ℤ) < 0 + 1 * 1 ∧
      (0 : ℤ) ≤ 0 + 1 * (0 : ℕ) ∧ (0 : ℤ) < 0 + 1 * (0 : ℕ) + 1
    norm_num

/-- Display state after one `updateImage` call: the grid dimensions are
unchanged, while the retained image and the used extent carry the call's
results. -/
def afterUpdate (g : Geometry) (st : DisplayState) (lineProps : List ℕ)
    (im : IMState) (resizing : Bool) (win : ScreenWindow) : DisplayState :=
  let r := updateImage g st lineProps im resizing win
  ⟨st.lines, st.columns, r.usedLines, r.usedColumns, r.image⟩

lemma copyRows_get (st : DisplayState) (win : ScreenWindow) (ctu : ℕ)
    (hctu : ctu ≤ st.columns) :
    ∀ n y c, y < n → c < ctu →
      copyRows st win ctu n (y * st.columns + c) = newLineAt win y c := by
  intro n
  induction n with
  | zero => intro y c hy _; omega
  | succ m ih =>
      intro y c hy hc
      rw [copyRows, writeRow]
      rcases Nat.lt_succ_iff_lt_or_eq.mp hy with hy' | rfl
      · rw [if_neg ?_]
        · exact ih y c hy' hc
        · rintro ⟨h1, _⟩
          have h2 : y * st.columns + c < (y + 1) * st.columns := by
            have : c < st.columns := lt_of_lt_of_le hc hctu
            calc y * st.columns + c < y * st.columns + st.columns := by omega
              _ = (y + 1) * st.columns := by ring
          have h3 : (y + 1) * st.columns ≤ m * st.columns :=
            Nat.mul_le_mul_right _ (by omega)
          omega
      · rw [if_pos ⟨Nat.le_add_right _ _, by omega⟩]
        congr 1
        omega

lemma copyRows_eq_newLine (g : Geometry) (st : DisplayState)
    (lineProps : List ℕ) (im : IMState) (resizing : Bool)
    (win : ScreenWindow) :
    ∀ y, y < linesToUpdate st win → ∀ c, c < columnsToUpdate st win →
      (updateImage g st lineProps im resizing win).image
          (y * st.columns + c) = newLineAt win y c := by
  intro y hy c hc
  exact copyRows_get st win (columnsToUpdate st win)
    (min_le_left _ _) (linesToUpdate st win) y c hy hc

/-- Claim C6 (amended): the first differencer run overwrites the retained
image with the new image on the compared extent, and a second run on the
resulting state with the same window yields an empty dirty region,
provided no input-composition or selection-highlight span is active and
no compared row carries the double-height flag. -/
theorem updateImage_second_run_empty (g : Geometry) (st : DisplayState)
    (lineProps : List ℕ) (im : IMState) (resizing : Bool)
    (win : ScreenWindow)
    (hIM : ∀ y c : ℕ, imSpanHit im y c = false)
    (hDH : ∀ y, y < lineProps.length →
      hasDoubleHeight (lineProps.getD y 0) = false) :
    (∀ y, y < linesToUpdate st win → ∀ c, c < columnsToUpdate st win →
      (updateImage g st lineProps im resizing win).image
        (y * st.columns + c) = newLineAt win y c) ∧
    (updateImage g (afterUpdate g st lineProps im resizing win) lineProps
      im resizing win).region = ∅ := by
  have hcopy := copyRows_eq_newLine g st lineProps im resizing win
  refine ⟨hcopy, ?_⟩
  set st' := afterUpdate g st lineProps im resizing win with hst'
  have hlines : st'.lines = st.lines := rfl
  have hcols : st'.columns = st.columns := rfl
  have hltu : linesToUpdate st' win = linesToUpdate st win := rfl
  have hctu : columnsToUpdate st' win = columnsToUpdate st win := rfl
  refine updateImage_region_empty_core g st' lineProps im resizing win
    ?_ (fun y _ c _ => hIM y c) (fun y _ hy => hDH y hy) ?_ ?_
  · intro y hy c hc
    rw [hltu] at hy
    rw [hctu] at hc
    show newLineAt win y c = st'.image (y * st'.columns + c)
    rw [hcols]
    exact (hcopy y hy c hc).symm
  · show (updateImage g st lineProps im resizing win).usedLines ≤ _
    rw [hltu]
    exact le_refl _
  · show (updateImage g st lineProps im resizing win).usedColumns ≤ _
    rw [hctu]
    exact le_refl _

theorem updateImage_second_run_empty_witness :
    (∀ y c : ℕ, imSpanHit imOff y c = false) ∧
    ((∀ y, y < linesToUpdate exStBlank exWinBlank →
        ∀ c, c < columnsToUpdate exStBlank exWinBlank →
          (updateImage exG exStBlank [] imOff false exWinBlank).image
            (y * exStBlank.columns + c) = newLineAt exWinBlank y c) ∧
      (updateImage exG (afterUpdate exG exStBlank [] imOff false exWinBlank)
        [] imOff false exWinBlank).region = ∅) :=
  ⟨fun y c => by simp [imSpanHit, imOff],
   updateImage_second_run_empty exG exStBlank [] imOff false exWinBlank
     (fun y c => by simp [imSpanHit, imOff])
     (fun y hy => absurd hy (by simp))⟩

/-- Concrete input-method state with an active preedit whose
selection-highlight span covers every column beyond 0 on every row. -/
def imSel : IMState := ⟨1, 0, 0, 0, 0, 1⟩

/-- Concrete one-by-two display with a blank retained image. -/
def exStWide : DisplayState := ⟨1, 2, 1, 2, fun _ => blankCharacter⟩

/-- Concrete one-by-two screen window with a blank image. -/
def exWinWide : ScreenWindow := ⟨fun _ => blankCharacter, 1, 2⟩

/-- Counterexample to claim C6 as stated: with an active input-method
selection span, the second differencer run on the same `(old, new)` pair
still returns a nonempty dirty region, even though the retained image
was overwritten with the new image by the first run. -/
theorem updateImage_second_run_counterexample :
    (0, 0) ∈
      (updateImage exG (afterUpdate exG exStWide [] imSel false exWinWide)
        [] imSel false exWinWide).region := by
  refine Or.inl (Or.inl ⟨0, ?_, ?_⟩)
  · decide
  · show (0 : ℤ) ≤ 0 ∧ (0 : ℤ) < 0 + 1 * 2 ∧
      (0 : ℤ) ≤ 0 + 1 * (0 : ℕ) ∧ (0 : ℤ) < 0 + 1 * (0 : ℕ) + 1
    norm_num

/-- Embedding of `TerminalDisplay::clearImage` (lines 2616-2628): every
flat index `i <= image_size` is set to the blank cell (the loop bound is
inclusive, covering the sentinel at `image_size`). -/
def clearedImage (image_size : ℕ) (img : ℕ → Character) : ℕ → Character :=
  fun i => if i ≤ image_size then blankCharacter else img i

/-- Embedding of `TerminalDisplay::makeImage` (lines 2673-2688): the
image is allocated with `image_size + 1 = lines*columns + 1` cells
(`garbage` stands for the uninitialized `malloc` contents) and then
cleared by `clearImage`. -/
def makeImage (lines columns : ℕ) (garbage : ℕ → Character) :
    ℕ → Character :=
  clearedImage (lines * columns) garbage

/-- Row-copy loop of `TerminalDisplay::updateImageSize` (lines
1515-1517): for each `lin < n`, copy `cols` cells from
`oldimg[oldcol*lin]` to `image[columns*lin]`. -/
def copyOldRows (oldimg : ℕ → Character) (oldcol columns cols : ℕ)
    (base : ℕ → Character) : ℕ → (ℕ → Character)
  | 0 => base
  | lin + 1 =>
      writeRow (copyOldRows oldimg oldcol columns cols base lin)
        (lin * columns) cols (fun c => oldimg (lin * oldcol + c))

/-- Embedding of `TerminalDisplay::updateImageSize` (lines 1503-1532):
`makeImage` creates and clears the new image, then the old content is
copied at the overlapping `min(oldlin, lines) x min(oldcol, columns)`
rectangle. -/
def updateImageSize (oldimg : ℕ → Character) (oldlin oldcol lines columns : ℕ)
    (garbage : ℕ → Character) : ℕ → Character :=
  copyOldRows oldimg oldcol columns (min oldcol columns)
    (makeImage lines columns garbage) (min oldlin lines)

lemma copyOldRows_in (oldimg : ℕ → Character) (oldcol columns cols : ℕ)
    (base : ℕ → Character) (hcols : cols ≤ columns) :
    ∀ n y x, y < n → x < cols →
      copyOldRows oldimg oldcol columns cols base n (y * columns + x) =
        oldimg (y * oldcol + x) := by
  intro n
  induction n with
  | zero => intro y x hy _; omega
  | succ m ih =>
      intro y x hy hx
      rw [copyOldRows, writeRow]
      rcases Nat.lt_succ_iff_lt_or_eq.mp hy with hy' | rfl
      · rw [if_neg ?_]
        · exact ih y x hy' hx
        · rintro ⟨h1, _⟩
          have h2 : y * columns + x < (y + 1) * columns := by
            have : x < columns := lt_of_lt_of_le hx hcols
            calc y * columns + x < y * columns + columns := by omega
              _ = (y + 1) * columns := by ring
          have h3 : (y + 1) * columns ≤ m * columns :=
            Nat.mul_le_mul_right _ (by omega)
          omega
      · rw [if_pos ⟨Nat.le_add_right _ _, by omega⟩]
        congr 1
        omega

lemma copyOldRows_out (oldimg : ℕ → Character) (oldcol columns cols : ℕ)
    (base : ℕ → Character) (hcols : cols ≤ columns) :
    ∀ n y x, x < columns → (n ≤ y ∨ cols ≤ x) →
      copyOldRows oldimg oldcol columns cols base n (y * columns + x) =
        base (y * columns + x) := by
  intro n
  induction n with
  | zero => intro y x _ _; rfl
  | succ m ih =>
      intro y x hx hor
      rw [copyOldRows, writeRow, if_neg ?_]
      · refine ih y x hx ?_
        rcases hor with h | h
        · exact Or.inl (by omega)
        · exact Or.inr h
      · rintro ⟨h1, h2⟩
        rcases Nat.lt_trichotomy y m with hy | rfl | hy
        · have : y * columns + x < (y + 1) * columns := by
            calc y * columns + x < y * columns + columns := by omega
              _ = (y + 1) * columns := by ring
          have : (y + 1) * columns ≤ m * columns :=
            Nat.mul_le_mul_right _ (by omega)
          omega
        · rcases hor with h | h
          · omega
          · omega
        · have : (m + 1) * columns ≤ y * columns :=
            Nat.mul_le_mul_right _ (by omega)
          have hmc : m * columns + columns ≤ y * columns := by
            calc m * columns + columns = (m + 1) * columns := by ring
              _ ≤ y * columns := this
          omega

/-- Claim C7: on every resize, the retained content is copied at the
overlapping `min(oldRows, newRows) x min(oldCols, newCols)` rectangle and
every newly exposed cell of the new grid is the default blank cell
(space codepoint, default colors, no rendition). -/
theorem updateImageSize_spec (oldimg garbage : ℕ → Character)
    (oldlin oldcol lines columns y x : ℕ) (hy : y < lines)
    (hx : x < columns) :
    updateImageSize oldimg oldlin oldcol lines columns garbage
        (y * columns + x) =
      if y < min oldlin lines ∧ x < min oldcol columns then
        oldimg (y * oldcol + x)
      else blankCharacter := by
  have hcols : min oldcol columns ≤ columns := min_le_right _ _
  have hidx : y * columns + x ≤ lines * columns := by
    have h1 : y * columns + x < (y + 1) * columns := by
      calc y * columns + x < y * columns + columns := by omega
        _ = (y + 1) * columns := by ring
    have h2 : (y + 1) * columns ≤ lines * columns :=
      Nat.mul_le_mul_right _ (by omega)
    omega
  by_cases h : y < min oldlin lines ∧ x < min oldcol columns
  · rw [if_pos h, updateImageSize]
    exact copyOldRows_in oldimg oldcol columns (min oldcol columns) _
      hcols (min oldlin lines) y x h.1 h.2
  · rw [if_neg h, updateImageSize]
    rw [copyOldRows_out oldimg oldcol columns (min oldcol columns) _
      hcols (min oldlin lines) y x hx (by omega)]
    rw [makeImage, clearedImage, if_pos hidx]

theorem updateImageSize_spec_witness :
    ((1 : ℕ) < 2 ∧ (1 : ℕ) < 3) ∧
    updateImageSize exOldLine 1 1 2 3 exNewLine (1 * 3 + 1) =
      (if 1 < min 1 2 ∧ 1 < min 1 3 then exOldLine (1 * 1 + 1)
       else blankCharacter) :=
  ⟨⟨by decide, by decide⟩,
   updateImageSize_spec exOldLine exNewLine 1 1 2 3 1 1 (by decide)
     (by decide)⟩

lemma copyRows_sentinel (st : DisplayState) (win : ScreenWindow)
    (ctu : ℕ) (hctu : ctu ≤ st.columns) :
    ∀ n, n ≤ st.lines →
      copyRows st win ctu n (st.lines * st.columns) =
        st.image (st.lines * st.columns) := by
  intro n
  induction n with
  | zero => intro _; rfl
  | succ m ih =>
      intro hn
      rw [copyRows, writeRow, if_neg ?_]
      · exact ih (by omega)
      · rintro ⟨h1, h2⟩
        have : (m + 1) * st.columns ≤ st.lines * st.columns :=
          Nat.mul_le_mul_right _ hn
        have hmc : m * st.columns + st.columns ≤ st.lines * st.columns := by
          calc m * st.columns + st.columns = (m + 1) * st.columns := by ring
            _ ≤ st.lines * st.columns := this
        omega

/-- Embedding of the double-width probe of `paintContents` (line 1388):
`image[qMin(loc(x,y)+1, image_size)].character == 0`, applied here at
flat location `l`. -/
def doubleWidthProbe (img : ℕ → Character) (image_size l : ℕ) : Bool :=
  (img (min (l + 1) image_size)).character == 0

/-- Claim C10: `makeImage`/`clearImage` initialize every cell up to and
including the sentinel at index `lines*columns`; the differencer's row
copies never touch the sentinel; and for any image whose sentinel is the
blank cell, the double-width probe at the grid's last cell reads the
sentinel's nonzero space codepoint, so the last cell is never classified
as the start of a double-width glyph. -/
theorem image_sentinel_probe (garbage img : ℕ → Character)
    (lines columns : ℕ) (g : Geometry) (st : DisplayState)
    (lineProps : List ℕ) (im : IMState) (resizing : Bool)
    (win : ScreenWindow) :
    (∀ i, i ≤ lines * columns →
      makeImage lines columns garbage i = blankCharacter) ∧
    ((updateImage g st lineProps im resizing win).image
        (st.lines * st.columns) = st.image (st.lines * st.columns)) ∧
    (img (lines * columns) = blankCharacter → 0 < lines * columns →
      doubleWidthProbe img (lines * columns) (lines * columns - 1) =
        false) := by
  refine ⟨?_, ?_, ?_⟩
  · intro i hi
    rw [makeImage, clearedImage, if_pos hi]
  · show copyRows st win (columnsToUpdate st win) (linesToUpdate st win)
        (st.lines * st.columns) = _
    exact copyRows_sentinel st win (columnsToUpdate st win)
      (min_le_left _ _) (linesToUpdate st win) (min_le_left _ _)
  · intro hblank hpos
    rw [doubleWidthProbe]
    have h1 : lines * columns - 1 + 1 = lines * columns := by omega
    rw [h1, min_self, hblank]
    rfl

theorem image_sentinel_probe_witness :
    (exOldLine (1 * 1) = blankCharacter ∧ 0 < 1 * 1) ∧
    ((∀ i, i ≤ 1 * 1 → makeImage 1 1 exNewLine i = blankCharacter) ∧
     ((updateImage exG exStBlank [] imOff false exWinBlank).image
        (exStBlank.lines * exStBlank.columns) =
          exStBlank.image (exStBlank.lines * exStBlank.columns)) ∧
     (exOldLine (1 * 1) = blankCharacter → 0 < 1 * 1 →
       doubleWidthProbe exOldLine (1 * 1) (1 * 1 - 1) = false)) :=
  ⟨⟨by decide, by decide⟩,
   image_sentinel_probe exNewLine exOldLine 1 1 exG exStBlank [] imOff
     false exWinBlank⟩

/-- Match test of the fragment-coalescing `while` loop of
`paintContents` (lines 1393-1398), at column `x1` of row `y`:
`image[loc(x1,y)].foregroundColor == cf && ... .backgroundColor == cb &&
... .rendition == cr && (image[qMin(loc(x1,y)+1, image_size)].character
== 0) == doubleWidth && isLineChar(image[loc(x1,y)].character) ==
lineDraw`. -/
def paintMatch (img : ℕ → Character) (columns image_size y : ℕ)
    (cf cb cr : ℕ) (lineDraw doubleWidth : Bool) (x1 : ℕ) : Bool :=
  decide ((img (y * columns + x1)).foregroundColor = cf) &&
  decide ((img (y * columns + x1)).backgroundColor = cb) &&
  decide ((img (y * columns + x1)).rendition = cr) &&
  (doubleWidthProbe img image_size (y * columns + x1) == doubleWidth) &&
  (isLineChar (img (y * columns + x1)).character == lineDraw)

/-- Length-accumulation loop of `paintContents` (lines 1393-1405): while
`x + len <= rlx` and the match test holds, `len` grows by 2 for a
double-width fragment and by 1 otherwise.  `fuel` bounds the iteration
count; `len` grows by at least one per step, so `rlx + 2` iterations
always suffice. -/
def paintLenLoop (cond : ℕ → Bool) (dw : Bool) (rlx x : ℕ) :
    ℕ → ℕ → ℕ
  | 0, len => len
  | fuel + 1, len =>
      if decide (x + len ≤ rlx) && cond (x + len) then
        paintLenLoop cond dw rlx x fuel (len + if dw then 2 else 1)
      else len

/-- Length of the text fragment drawn by `paintContents` starting at
column `x` of row `y` (lines 1382-1407), including the trailing
adjustment of lines 1406-1407 for a trailing multi-column half cell. -/
def paintLen (img : ℕ → Character) (columns image_size usedColumns rlx
    y x : ℕ) : ℕ :=
  let first := img (y * columns + x)
  let lineDraw := isLineChar first.character
  let dw := doubleWidthProbe img image_size (y * columns + x)
  let len0 := paintLenLoop
    (paintMatch img columns image_size y first.foregroundColor
      first.backgroundColor first.rendition lineDraw dw) dw rlx x
    (rlx + 2) 1
  if x + len0 < usedColumns ∧ (img (y * columns + (x + len0))).character = 0
  then len0 + 1 else len0

/-- Inner column loop of `paintContents` (lines 1380-1458) restricted to
the fragment bookkeeping: paint the fragment at `(y, x)`, then increment
`y` when row `y` carries the double-height flag (lines 1448-1455, this
happens once per fragment, inside the column loop), then advance `x` by
the fragment length (`x += len - 1` plus the loop increment).  Returns
the painted fragments as `(row, column, length)` triples together with
the final value of `y`.  `fuel` bounds the iteration count; `x` advances
by at least one per fragment, so `rlx + 2` iterations always suffice. -/
def paintInner (img : ℕ → Character) (columns image_size usedColumns : ℕ)
    (props : List ℕ) (rlx : ℕ) : ℕ → ℕ → ℕ → List (ℕ × ℕ × ℕ) × ℕ
  | 0, y, _ => ([], y)
  | fuel + 1, y, x =>
      if x ≤ rlx then
        let len := paintLen img columns image_size usedColumns rlx y x
        let y' := if decide (y < props.length) &&
            hasDoubleHeight (props.getD y 0) then y + 1 else y
        let rest := paintInner img columns image_size usedColumns props rlx
          fuel y' (x + len)
        ((y, x, len) :: rest.1, rest.2)
      else ([], y)

/-- Outer row loop of `paintContents` (lines 1374-1459): for each row
from `luy` while `y <= rly`, start the column loop at `lux` (stepping
one column left when the first cell is the trailing half of a
multi-column character, lines 1376-1379), then continue with the row
after the final `y` of the inner loop (the shared loop variable is
incremented by the `for`). -/
def paintOuter (img : ℕ → Character) (columns image_size usedColumns : ℕ)
    (props : List ℕ) (lux rlx rly : ℕ) : ℕ → ℕ → List (ℕ × ℕ × ℕ)
  | 0, _ => []
  | fuel + 1, y =>
      if y ≤ rly then
        let c := (img (y * columns + lux)).character
        let x0 := if c = 0 ∧ 0 < lux then lux - 1 else lux
        let inner := paintInner img columns image_size usedColumns props rlx
          (rlx + 2) y x0
        inner.1 ++
          paintOuter img columns image_size usedColumns props lux rlx rly
            fuel (inner.2 + 1)
      else []

/-- Fragments painted by one `paintContents` call over the cell
rectangle `[lux, rlx] x [luy, rly]`. -/
def paintContentsFrags (img : ℕ → Character)
    (columns image_size usedColumns : ℕ) (props : List ℕ)
    (lux luy rlx rly : ℕ) : List (ℕ × ℕ × ℕ) :=
  paintOuter img columns image_size usedColumns props lux rlx rly
    (rly + 2) luy

/-- Concrete four-row, two-column image: rows 0 and 1 are an identical
double-height pair whose two columns have different foreground colors
(so the row paints as two fragments); rows 2 and 3 are ordinary rows. -/
def exPaintImg : ℕ → Character :=
  fun i =>
    if i = 0 then ⟨65, 0, 1, 0⟩ else if i = 1 then ⟨66, 2, 1, 0⟩
    else if i = 2 then ⟨65, 0, 1, 0⟩ else if i = 3 then ⟨66, 2, 1, 0⟩
    else if i = 4 then ⟨67, 0, 1, 0⟩ else if i = 5 then ⟨68, 0, 1, 0⟩
    else if i = 6 then ⟨69, 0, 1, 0⟩ else if i = 7 then ⟨70, 0, 1, 0⟩
    else blankCharacter

/-- Claim C3, evaluation at the failing input: painting the full
rectangle of a four-row grid whose double-height pair (rows 0 and 1,
both flagged `LINE_DOUBLEHEIGHT` as the code documents) needs two
drawable fragments.  The code paints the first fragment from row 0,
bumps `y` inside the column loop, paints the second fragment from the
bottom-half row 1, bumps `y` again, and resumes at row 3 — row 2 is
never painted, contradicting the claim that only the subsequent
bottom-half row is consumed and skipped. -/
theorem paintContents_doubleheight_two_fragment_eval :
    paintContentsFrags exPaintImg 2 8 2 [LINE_DOUBLEHEIGHT,
        LINE_DOUBLEHEIGHT, 0, 0] 0 0 1 3 =
      [(0, 0, 1), (1, 1, 1), (3, 0, 2)] ∧
    ∀ f ∈ paintContentsFrags exPaintImg 2 8 2 [LINE_DOUBLEHEIGHT,
        LINE_DOUBLEHEIGHT, 0, 0] 0 0 1 3, f.1 ≠ 2 := by
  constructor
  · decide
  · decide

/-- Modelled from the spec: the implementation of `HistoryScrollFile` is
not among the sources (only its class declaration, with its three
`HistoryFile` members `_index`, `_cells`, `_lineflags`), so the
three-parallel-array line store is modelled from spec section 4.1: an
index array of monotonically increasing offsets (one entry per line
boundary) into a cell array holding the concatenation of all lines'
cells, plus one flag per line. -/
structure HistoryScrollFile where
  index : List ℕ
  cells : List Character
  lineflags : List Bool

/-- Modelled from the spec: number of stored lines, one per completed
index boundary. -/
def HistoryScrollFile.getLines (h : HistoryScrollFile) : ℕ :=
  h.index.length

/-- Modelled from the spec: cell-array offset at which line `lineno`
starts (the boundary before the first line is 0). -/
def HistoryScrollFile.startOfLine (h : HistoryScrollFile) (lineno : ℕ) : ℕ :=
  if lineno = 0 then 0 else h.index.getD (lineno - 1) 0

/-- Modelled from the spec: `getLineLen(lineno)` is the difference of the
two boundaries around line `lineno`. -/
def HistoryScrollFile.getLineLen (h : HistoryScrollFile) (lineno : ℕ) : ℕ :=
  h.startOfLine (lineno + 1) - h.startOfLine lineno

/-- Modelled from the spec: `getCells(lineno, colno, count)` copies
`count` cells starting at `index[lineno] + colno` from the cell array. -/
def HistoryScrollFile.getCells (h : HistoryScrollFile)
    (lineno colno count : ℕ) : List Character :=
  (h.cells.drop (h.startOfLine lineno + colno)).take count

/-- Modelled from the spec: `addCells(cells, count)` appends to the cell
array. -/
def HistoryScrollFile.addCells (h : HistoryScrollFile)
    (cs : List Character) : HistoryScrollFile :=
  ⟨h.index, h.cells ++ cs, h.lineflags⟩

/-- Modelled from the spec: `addLine(previousWrapped)` appends a new
index boundary and flag byte, completing the line started by the
preceding `addCells` calls. -/
def HistoryScrollFile.addLine (h : HistoryScrollFile)
    (previousWrapped : Bool) : HistoryScrollFile :=
  ⟨h.index ++ [h.cells.length], h.cells, h.lineflags ++ [previousWrapped]⟩

lemma foldl_addCells (css : List (List Character)) :
    ∀ h : HistoryScrollFile,
      (css.foldl HistoryScrollFile.addCells h).index = h.index ∧
      (css.foldl HistoryScrollFile.addCells h).cells = h.cells ++ css.join ∧
      (css.foldl HistoryScrollFile.addCells h).lineflags = h.lineflags := by
  induction css with
  | nil => intro h; simp
  | cons cs css ih =>
      intro h
      obtain ⟨h1, h2, h3⟩ := ih (h.addCells cs)
      refine ⟨h1, ?_, h3⟩
      rw [List.foldl_cons, h2]
      show (h.cells ++ cs) ++ css.join = h.cells ++ (cs :: css).join
      simp [List.append_assoc]

/-- Claim C8: for every cell sequence written as a run of `addCells`
calls completed by one `addLine`, reading the line back through
`getCells(lineno, 0, len)` with `len = getLineLen(lineno)` yields
exactly the written cell sequence (the union of all cell appends since
the previous `addLine`); the store must have no dangling cells past its
last boundary, which is exactly the state left by a previous
`addLine`. -/
theorem historyScrollFile_roundtrip (h : HistoryScrollFile)
    (css : List (List Character)) (w : Bool)
    (hclosed : h.startOfLine h.getLines = h.cells.length) :
    ((css.foldl HistoryScrollFile.addCells h).addLine w).getLineLen
        h.getLines = css.join.length ∧
    ((css.foldl HistoryScrollFile.addCells h).addLine w).getCells
        h.getLines 0
        (((css.foldl HistoryScrollFile.addCells h).addLine w).getLineLen
          h.getLines) = css.join := by
  obtain ⟨hidx, hcells, _⟩ := foldl_addCells css h
  set h2 := (css.foldl HistoryScrollFile.addCells h).addLine w with hh2
  have h2idx : h2.index = h.index ++ [h.cells.length + css.join.length] := by
    show (css.foldl HistoryScrollFile.addCells h).index ++
        [(css.foldl HistoryScrollFile.addCells h).cells.length] = _
    rw [hidx, hcells, List.length_append]
  have h2cells : h2.cells = h.cells ++ css.join := hcells
  have hstart : h2.startOfLine h.getLines = h.cells.length := by
    rw [HistoryScrollFile.startOfLine]
    by_cases hn : h.getLines = 0
    · rw [if_pos hn]
      rw [HistoryScrollFile.startOfLine, if_pos hn] at hclosed
      exact hclosed
    · rw [if_neg hn, h2idx]
      have hlt : h.getLines - 1 < h.index.length := by
        rw [HistoryScrollFile.getLines] at hn ⊢
        omega
      rw [List.getD_append _ _ _ _ hlt]
      rw [HistoryScrollFile.startOfLine, if_neg hn] at hclosed
      exact hclosed
  have hstart1 : h2.startOfLine (h.getLines + 1) =
      h.cells.length + css.join.length := by
    rw [HistoryScrollFile.startOfLine, if_neg (by omega), h2idx]
    have : h.getLines + 1 - 1 = h.index.length := by
      rw [HistoryScrollFile.getLines]
      omega
    rw [this]
    rw [List.getD_eq_getElem _ _ (by simp)]
    simp
  have hlen : h2.getLineLen h.getLines = css.join.length := by
    rw [HistoryScrollFile.getLineLen, hstart, hstart1]
    omega
  refine ⟨hlen, ?_⟩
  rw [hlen, HistoryScrollFile.getCells, hstart, h2cells, Nat.add_zero,
    List.drop_left, List.take_length]

/-- Concrete cells for the history round-trip witness. -/
def exHistWrite : List (List Character) :=
  [[⟨65, 0, 1, 0⟩], [⟨66, 0, 1, 0⟩, ⟨67, 2, 1, 0⟩]]

/-- Concrete empty history store. -/
def exHistEmpty : HistoryScrollFile := ⟨[], [], []⟩

theorem historyScrollFile_roundtrip_witness :
    (exHistEmpty.startOfLine exHistEmpty.getLines =
      exHistEmpty.cells.length) ∧
    (((exHistWrite.foldl HistoryScrollFile.addCells exHistEmpty).addLine
        false).getLineLen exHistEmpty.getLines = exHistWrite.join.length ∧
     ((exHistWrite.foldl HistoryScrollFile.addCells exHistEmpty).addLine
        false).getCells exHistEmpty.getLines 0
        (((exHistWrite.foldl HistoryScrollFile.addCells
            exHistEmpty).addLine false).getLineLen exHistEmpty.getLines) =
       exHistWrite.join) :=
  ⟨by decide,
   historyScrollFile_roundtrip exHistEmpty exHistWrite false (by decide)⟩

theorem updateImage_clamped_extent_witness :
    (linesToUpdate exStShrink exWinBlank < exStShrink.usedLines ∧
      columnsToUpdate exStShrink exWinBlank < exStShrink.usedColumns) ∧
    shrinkRowsRect exG exStShrink (linesToUpdate exStShrink exWinBlank) ⊆
      (updateImage exG exStShrink [] imOff false exWinBlank).region ∧
    shrinkColsRect exG exStShrink (columnsToUpdate exStShrink exWinBlank) ⊆
      (updateImage exG exStShrink [] imOff false exWinBlank).region :=
  ⟨⟨by decide, by decide⟩,
   (updateImage_clamped_extent exG exStShrink [] imOff false
       exWinBlank).2.2.1 (by decide),
   (updateImage_clamped_extent exG exStShrink [] imOff false
       exWinBlank).2.2.2 (by decide)⟩

end Konsole
